import Mathlib

/-!
# Verification of the cython-ctypes-perf computation library and benchmark harness

Shallow embedding of the repository's benchmark harness
(`benchmarks/benchmark_runner.py`) and of the native computation library's
contract. Python floats (elapsed times, doubles) are modelled as rationals
(`ℚ`): every claim under scrutiny only involves field operations and
comparisons, never rounding behaviour. C integers are modelled as `ℤ`/`ℕ`.

The native library source (`src/benchmark_lib.c`) is not part of the tree;
for its primitives the definitions below are modelled from the spec, as
marked in their doc comments. Everything else is translated directly from
the Python sources.
-/

namespace CtypesPerf

/-! ## Harness data model (`benchmarks/benchmark_runner.py`) -/

/-- Statistics record produced by `BenchmarkResult.get_stats`.
The Python code computes `np.std(times)`; over `ℚ` a square root is not
available, so the `std` field stores the variance (the square of `np.std`).
No claim inspects the `std` field, and the other fields match the source
exactly. -/
structure Stats where
  mean : ℚ
  median : ℚ
  std : ℚ
  min : ℚ
  max : ℚ
  throughput : ℚ
  deriving Repr, DecidableEq

/-- Memory-tracking record attached by `run_memory_benchmark`. -/
structure MemStats where
  current : ℤ
  peak : ℤ
  rss_delta : ℤ
  deriving Repr, DecidableEq

/-- `BenchmarkResult` from `benchmark_runner.py`: name, category, the two
timing lists, optional memory records and a params dictionary. -/
structure BenchmarkResult where
  name : String
  category : String
  cython_times : List ℚ := []
  ctypes_times : List ℚ := []
  cython_memory : Option MemStats := none
  ctypes_memory : Option MemStats := none
  params : List (String × String) := []
  deriving Repr, DecidableEq

/-- `np.mean` over the model: sum divided by length. -/
def npMean (l : List ℚ) : ℚ := l.sum / l.length

/-- `np.median` over the model: middle element of the sorted list for odd
length, average of the two middle elements for even length. -/
def npMedian (l : List ℚ) : ℚ :=
  let s := l.insertionSort (· ≤ ·)
  let n := s.length
  if n % 2 = 1 then s.getD (n / 2) 0
  else (s.getD (n / 2 - 1) 0 + s.getD (n / 2) 0) / 2

/-- Variance, `(np.std)^2`: mean of squared deviations from the mean. -/
def npVariance (l : List ℚ) : ℚ :=
  npMean (l.map fun x => (x - npMean l) ^ 2)

/-- `np.min` over the model (nonempty lists; `0` as vacuous seed). -/
def npMin (l : List ℚ) : ℚ := l.foldl min (l.headD 0)

/-- `np.max` over the model (nonempty lists; `0` as vacuous seed). -/
def npMax (l : List ℚ) : ℚ := l.foldl max (l.headD 0)

/-- `BenchmarkResult.add_timing`: appends the elapsed time to the list of
the given framework (`'cython'` appends to `cython_times`, anything else to
`ctypes_times`). -/
def addTiming (r : BenchmarkResult) (framework : String) (elapsed : ℚ) :
    BenchmarkResult :=
  if framework = "cython" then
    { r with cython_times := r.cython_times ++ [elapsed] }
  else
    { r with ctypes_times := r.ctypes_times ++ [elapsed] }

/-- Core of `BenchmarkResult.get_stats`: `None` for an empty timing list,
otherwise the statistics record, with `throughput = 1/mean` guarded by
`mean > 0` exactly as in the source. -/
def statsOf (times : List ℚ) : Option Stats :=
  if times = [] then none
  else some
    { mean := npMean times
      median := npMedian times
      std := npVariance times
      min := npMin times
      max := npMax times
      throughput := if 0 < npMean times then 1 / npMean times else 0 }

/-- `BenchmarkResult.get_stats(framework)`: selects the timing list by
framework name and computes the statistics. -/
def getStats (r : BenchmarkResult) (framework : String) : Option Stats :=
  statsOf (if framework = "cython" then r.cython_times else r.ctypes_times)

/-- The dictionary built by `BenchmarkResult.to_dict`: `none` models an
absent key. -/
structure ResultDict where
  name : String
  category : String
  params : List (String × String)
  cython : Option Stats
  ctypes : Option Stats
  cython_memory : Option MemStats
  ctypes_memory : Option MemStats
  speedup : Option ℚ
  deriving Repr, DecidableEq

/-- `BenchmarkResult.to_dict`: per-adapter statistics under `cython` /
`ctypes`, memory records only when present, and a `speedup` key
(`ctypes mean / cython mean`) only when both statistics records are
present (a non-`None` stats dictionary is always truthy in the source). -/
def toDict (r : BenchmarkResult) : ResultDict :=
  let cy := getStats r "cython"
  let ct := getStats r "ctypes"
  { name := r.name
    category := r.category
    params := r.params
    cython := cy
    ctypes := ct
    cython_memory := r.cython_memory
    ctypes_memory := r.ctypes_memory
    speedup :=
      match cy, ct with
      | some cyS, some ctS => some (ctS.mean / cyS.mean)
      | _, _ => none }

/-! ## The timed loop of `BenchmarkRunner.run_benchmark`

Each timed call of an adapter either succeeds after some elapsed time
(`some t`) or raises (`none`). The source loop runs `iterations` times;
on an exception it prints the error and `break`s out of the loop, so the
sample of the raising call — and every later iteration — is not recorded. -/

/-- One adapter's timed loop from `run_benchmark` (lines 119–143): fold the
outcome of each scheduled iteration, recording the elapsed time with
`add_timing` on success and breaking out of the loop on the first
exception. -/
def benchLoop (framework : String) (outcomes : List (Option ℚ))
    (r : BenchmarkResult) : BenchmarkResult :=
  match outcomes with
  | [] => r
  | none :: _ => r
  | some t :: rest => benchLoop framework rest (addTiming r framework t)

/-- `BenchmarkRunner.run_benchmark` restricted to its observable effect on
the produced `BenchmarkResult`: starting from a fresh result with the given
name, category and params, run the cython timed loop (when the cython
adapter is available), then the ctypes timed loop (when available). The
warmup loops do not touch the result. -/
def runBenchmark (name category : String) (params : List (String × String))
    (cyAvailable ctAvailable : Bool)
    (cyOutcomes ctOutcomes : List (Option ℚ)) : BenchmarkResult :=
  let r0 : BenchmarkResult := { name := name, category := category, params := params }
  let r1 := if cyAvailable then benchLoop "cython" cyOutcomes r0 else r0
  if ctAvailable then benchLoop "ctypes" ctOutcomes r1 else r1

/-- Number of raising calls among the scheduled iteration outcomes. -/
def numRaises (outcomes : List (Option ℚ)) : ℕ :=
  outcomes.countP (·.isNone)

/-- The samples the timed loop actually records: the elapsed times of the
iterations preceding the first raising call. -/
def recordedSamples (outcomes : List (Option ℚ)) : List ℚ :=
  (outcomes.takeWhile Option.isSome).filterMap id

/-! ## Harness lemmas -/

theorem recordedSamples_nil : recordedSamples [] = [] := rfl

theorem recordedSamples_none (rest : List (Option ℚ)) :
    recordedSamples (none :: rest) = [] := rfl

theorem recordedSamples_some (t : ℚ) (rest : List (Option ℚ)) :
    recordedSamples (some t :: rest) = t :: recordedSamples rest := by
  simp [recordedSamples, List.takeWhile_cons]

theorem benchLoop_ctypes_times (outs : List (Option ℚ)) (r : BenchmarkResult) :
    (benchLoop "ctypes" outs r).ctypes_times =
      r.ctypes_times ++ recordedSamples outs := by
  induction outs generalizing r with
  | nil => simp [benchLoop, recordedSamples]
  | cons o rest ih =>
    cases o with
    | none => simp [benchLoop, recordedSamples]
    | some t => simp [benchLoop, ih, addTiming, recordedSamples_some]

theorem benchLoop_cython_times (outs : List (Option ℚ)) (r : BenchmarkResult) :
    (benchLoop "cython" outs r).cython_times =
      r.cython_times ++ recordedSamples outs := by
  induction outs generalizing r with
  | nil => simp [benchLoop, recordedSamples]
  | cons o rest ih =>
    cases o with
    | none => simp [benchLoop, recordedSamples]
    | some t => simp [benchLoop, ih, addTiming, recordedSamples_some]

theorem benchLoop_ctypes_cython_times (outs : List (Option ℚ)) (r : BenchmarkResult) :
    (benchLoop "ctypes" outs r).cython_times = r.cython_times := by
  induction outs generalizing r with
  | nil => simp [benchLoop]
  | cons o rest ih =>
    cases o with
    | none => simp [benchLoop]
    | some t => simp [benchLoop, ih, addTiming]

theorem benchLoop_cython_ctypes_times (outs : List (Option ℚ)) (r : BenchmarkResult) :
    (benchLoop "cython" outs r).ctypes_times = r.ctypes_times := by
  induction outs generalizing r with
  | nil => simp [benchLoop]
  | cons o rest ih =>
    cases o with
    | none => simp [benchLoop]
    | some t => simp [benchLoop, ih, addTiming]

theorem recordedSamples_all_some (outs : List (Option ℚ))
    (h : ∀ o ∈ outs, o.isSome) :
    (recordedSamples outs).length = outs.length := by
  induction outs with
  | nil => simp [recordedSamples]
  | cons o rest ih =>
    cases o with
    | none => exact absurd (h none (by simp)) (by simp)
    | some t =>
      rw [recordedSamples_some]
      simp only [List.length_cons]
      rw [ih fun o ho => h o (by simp [ho])]

/-! ## Claim C1: exception handling in the timed loop of `run_benchmark` -/

/-- C1 (counterexample): the claim says that with `I` iterations of which
`k` raise, `I - k` samples are still recorded. With `I = 2` iterations for
the ctypes adapter where the first call raises (`k = 1`), the loop breaks
immediately and records `0` samples, not `I - k = 1`. -/
theorem run_benchmark_continue_cex :
    ¬ ((runBenchmark "bench" "cat" [] true true [some 1, some 1]
          [none, some (1 : ℚ)]).ctypes_times.length
        = [none, some (1 : ℚ)].length - numRaises [none, some (1 : ℚ)]) := by
  decide

/-- C1 (amended): when an adapter call raises during a timed iteration of
`run_benchmark`, the harness catches and logs the exception, does not record
that sample, and breaks out of that adapter's timing loop; the samples
recorded for the adapter are exactly the elapsed times of the iterations
preceding the first raising call (in particular, all `I` samples when no
call raises). -/
theorem run_benchmark_stops_at_first_raise (name cat : String)
    (params : List (String × String)) (cy ct : List (Option ℚ)) :
    (runBenchmark name cat params true true cy ct).cython_times
        = recordedSamples cy
    ∧ (runBenchmark name cat params true true cy ct).ctypes_times
        = recordedSamples ct
    ∧ ((∀ o ∈ ct, o.isSome) →
        (runBenchmark name cat params true true cy ct).ctypes_times.length
          = ct.length) := by
  refine ⟨?_, ?_, ?_⟩
  · simp [runBenchmark, benchLoop_ctypes_cython_times, benchLoop_cython_times]
  · simp [runBenchmark, benchLoop_ctypes_times, benchLoop_cython_ctypes_times]
  · intro h
    simp [runBenchmark, benchLoop_ctypes_times, benchLoop_cython_ctypes_times,
      recordedSamples_all_some ct h]

/-- C1 witness: with two non-raising ctypes iterations, both samples are
recorded. -/
theorem run_benchmark_stops_at_first_raise_witness :
    (runBenchmark "bench" "cat" [] true true [some 1]
        [some (1 : ℚ), some 2]).ctypes_times.length
      = [some (1 : ℚ), some 2].length :=
  (run_benchmark_stops_at_first_raise "bench" "cat" [] [some 1]
    [some 1, some 2]).2.2 (by decide)

/-! ## Claim C2: `to_dict` record shape and the `speedup` field -/

/-- C2: `to_dict` produces a record with the benchmark's name, category,
params and per-adapter statistics; when both adapters have at least one
recorded timing the record carries a `speedup` field equal to the ctypes
adapter's mean time divided by the cython adapter's mean time, and when
either adapter has no timings the `speedup` key is absent. -/
theorem to_dict_speedup (r : BenchmarkResult) :
    (toDict r).name = r.name
    ∧ (toDict r).category = r.category
    ∧ (toDict r).params = r.params
    ∧ (toDict r).cython = statsOf r.cython_times
    ∧ (toDict r).ctypes = statsOf r.ctypes_times
    ∧ (r.cython_times ≠ [] → r.ctypes_times ≠ [] →
        (toDict r).speedup
          = some (npMean r.ctypes_times / npMean r.cython_times))
    ∧ ((r.cython_times = [] ∨ r.ctypes_times = []) →
        (toDict r).speedup = none) := by
  refine ⟨rfl, rfl, rfl, ?_, ?_, ?_, ?_⟩
  · simp [toDict, getStats]
  · simp [toDict, getStats]
  · intro hcy hct
    simp [toDict, getStats, statsOf, hcy, hct]
  · rintro (h | h) <;> simp [toDict, getStats, statsOf, h]

/-- C2 witness: a result with one timing on each side gets
`speedup = 3/2`, while dropping the cython timings drops the key. -/
theorem to_dict_speedup_witness :
    (toDict { name := "b", category := "c", cython_times := [2], ctypes_times := [3] }).speedup = some ((3 : ℚ) / 2) :=
  ((to_dict_speedup { name := "b", category := "c", cython_times := [2], ctypes_times := [3] }).2.2.2.2.2.1 (by decide) (by decide)).trans
    (by norm_num [npMean])

/-! ## Claim C10: totality of `get_stats` and the throughput guard -/

theorem statsOf_eq_none_iff (times : List ℚ) :
    statsOf times = none ↔ times = [] := by
  unfold statsOf
  by_cases h : times = [] <;> simp [h]

theorem statsOf_eq_some (times : List ℚ) (h : times ≠ []) :
    statsOf times = some
      { mean := npMean times
        median := npMedian times
        std := npVariance times
        min := npMin times
        max := npMax times
        throughput := if 0 < npMean times then 1 / npMean times else 0 } := by
  unfold statsOf
  rw [if_neg h]

/-- C10: `get_stats` is total and never divides by zero: it returns `None`
exactly when the selected framework's timing list is empty, and otherwise a
record whose `throughput` is the reciprocal of the mean when the mean is
strictly positive and `0` otherwise. -/
theorem get_stats_total (r : BenchmarkResult) (fw : String) :
    (getStats r fw = none ↔
        (if fw = "cython" then r.cython_times else r.ctypes_times) = [])
    ∧ (∀ s, getStats r fw = some s →
        s.mean = npMean (if fw = "cython" then r.cython_times else r.ctypes_times)
        ∧ (0 < s.mean → s.throughput = 1 / s.mean ∧ s.throughput * s.mean = 1)
        ∧ (s.mean ≤ 0 → s.throughput = 0)) := by
  constructor
  · exact statsOf_eq_none_iff _
  · intro s hs
    unfold getStats at hs
    by_cases h : (if fw = "cython" then r.cython_times else r.ctypes_times) = []
    · rw [h] at hs
      exact absurd hs (by simp [statsOf])
    · rw [statsOf_eq_some _ h] at hs
      obtain rfl := (Option.some.inj hs).symm
      refine ⟨rfl, ?_, ?_⟩
      · intro hpos
        have hpos' : 0 < npMean (if fw = "cython" then r.cython_times else r.ctypes_times) :=
          hpos
        constructor
        · show (if 0 < npMean _ then 1 / npMean _ else 0) = _
          rw [if_pos hpos']
        · show (if 0 < npMean _ then 1 / npMean _ else 0) * npMean _ = 1
          rw [if_pos hpos']
          field_simp
      · intro hle
        have hle' : npMean (if fw = "cython" then r.cython_times else r.ctypes_times) ≤ 0 :=
          hle
        show (if 0 < npMean _ then 1 / npMean _ else 0) = 0
        rw [if_neg (not_lt.mpr hle')]

/-- C10 witness: a result with a single timing of `2` on the ctypes side
yields a stats record with mean `2` and throughput `1/2`. -/
theorem get_stats_total_witness :
    (Stats.mean { mean := 2, median := 2, std := 0, min := 2, max := 2, throughput := 1 / 2 } : ℚ) = npMean (if "ctypes" = "cython" then ([] : List ℚ) else [(2 : ℚ)]) :=
  ((get_stats_total { name := "b", category := "c", ctypes_times := [(2 : ℚ)] } "ctypes").2
    { mean := 2, median := 2, std := 0, min := 2, max := 2, throughput := 1 / 2 }
    (by simp [getStats, statsOf, npMean, npMedian, npVariance, npMin, npMax, List.insertionSort])).1

/-! ## Computation library: compute-intensive primitives

`src/benchmark_lib.c` is not part of the tree; the primitives below are
modelled from the spec (§4.2) and exercised through the ctypes declarations
in `src/ctypes_wrapper.py`. -/

/-- Modelled from the spec: `fibonacci_recursive(n) -> F(n)`, direct binary
recursion with `F(0)=0, F(1)=1` (`src/benchmark_lib.c` is missing from the
tree; `ctypes_wrapper.py` only declares its `c_int -> c_longlong`
signature). -/
def fibonacci_recursive : ℕ → ℕ
  | 0 => 0
  | 1 => 1
  | n + 2 => fibonacci_recursive (n + 1) + fibonacci_recursive n

/-- Loop of the iterative Fibonacci: `k` steps over the running pair. -/
def fibIterGo : ℕ → ℕ → ℕ → ℕ
  | 0, a, _ => a
  | k + 1, a, b => fibIterGo k b (a + b)

/-- Modelled from the spec: `fibonacci_iterative(n) -> F(n)`, linear time,
same domain as the recursive variant (`src/benchmark_lib.c` is missing from
the tree). -/
def fibonacci_iterative (n : ℕ) : ℕ := fibIterGo n 0 1

theorem fibIterGo_fib (k m : ℕ) :
    fibIterGo k (Nat.fib m) (Nat.fib (m + 1)) = Nat.fib (m + k) := by
  induction k generalizing m with
  | zero => simp [fibIterGo]
  | succ k ih =>
    rw [fibIterGo, ← Nat.fib_add_two]
    have := ih (m + 1)
    rw [this]
    ring_nf

theorem fibonacci_iterative_eq_fib (n : ℕ) : fibonacci_iterative n = Nat.fib n := by
  have h := fibIterGo_fib n 0
  simpa [fibonacci_iterative, Nat.fib_zero, Nat.fib_one] using h

theorem fibonacci_recursive_eq_fib (n : ℕ) : fibonacci_recursive n = Nat.fib n := by
  induction n using Nat.strong_induction_on with
  | _ n ih =>
    match n with
    | 0 => rfl
    | 1 => rfl
    | n + 2 =>
      rw [fibonacci_recursive, Nat.fib_add_two,
        ih (n + 1) (by omega), ih n (by omega), Nat.add_comm]

/-- Modelled from the spec: trial-division loop of `is_prime`, testing
candidate divisors `d, d+1, ...` up to `√n` (`src/benchmark_lib.c` is
missing from the tree). -/
def trialDiv (n : ℕ) (d : ℕ) : Bool :=
  if h : n < d * d then true
  else if n % d = 0 then false
  else trialDiv n (d + 1)
termination_by n + 1 - d
decreasing_by
  have hdd : d * d ≤ n := Nat.not_lt.mp h
  have hdn : d ≤ n := by
    rcases Nat.eq_zero_or_pos d with h0 | h0
    · omega
    · calc d ≤ d * d := Nat.le_mul_of_pos_left d h0
        _ ≤ n := hdd
  omega

/-- Modelled from the spec: `is_prime(n) -> bool`, trial division up to
`√n`; `0` and `1` are not prime; negative `n` returns false, not a crash
(`src/benchmark_lib.c` is missing from the tree; the argument is a
`c_longlong`). -/
def is_prime (n : ℤ) : Bool := if n < 2 then false else trialDiv n.toNat 2

/-- Loop of `count_primes`: counts primes over `k` consecutive integers
starting at `i`. -/
def countPrimesGo : ℤ → ℕ → ℕ
  | _, 0 => 0
  | i, k + 1 => (if is_prime i then 1 else 0) + countPrimesGo (i + 1) k

/-- Modelled from the spec: `count_primes(start, end) -> count`, inclusive
range count using `is_prime`; an inverted range (`start > end`) yields `0`
(`src/benchmark_lib.c` is missing from the tree). -/
def count_primes (s e : ℤ) : ℕ := countPrimesGo s (e + 1 - s).toNat

/-- The trial-division loop is correct: starting at candidate `d ≥ 1`, it
answers `true` exactly when no `m ≥ d` with `m * m ≤ n` divides `n`. -/
theorem trialDiv_eq_true_iff :
    ∀ (k n d : ℕ), 1 ≤ d → n + 1 - d ≤ k →
      (trialDiv n d = true ↔ ∀ m, d ≤ m → m * m ≤ n → ¬ (m ∣ n)) := by
  intro k
  induction k with
  | zero =>
    intro n d hd hk
    have hdn : n < d := by omega
    have hsq : n < d * d := lt_of_lt_of_le hdn (Nat.le_mul_of_pos_left d (by omega))
    rw [trialDiv, dif_pos hsq]
    simp only [true_iff]
    intro m hm hmm
    exact absurd hmm (Nat.not_le.mpr
      (lt_of_lt_of_le hsq (Nat.mul_le_mul hm hm)))
  | succ k ih =>
    intro n d hd hk
    rw [trialDiv]
    by_cases hsq : n < d * d
    · rw [dif_pos hsq]
      simp only [true_iff]
      intro m hm hmm
      exact absurd hmm (Nat.not_le.mpr
        (lt_of_lt_of_le hsq (Nat.mul_le_mul hm hm)))
    · rw [dif_neg hsq]
      by_cases hmod : n % d = 0
      · rw [if_pos hmod]
        simp only [Bool.false_eq_true, false_iff]
        push_neg
        exact ⟨d, le_refl d, Nat.not_lt.mp hsq, Nat.dvd_of_mod_eq_zero hmod⟩
      · rw [if_neg hmod]
        have hdn : d ≤ n := by
          calc d ≤ d * d := Nat.le_mul_of_pos_left d (by omega)
            _ ≤ n := Nat.not_lt.mp hsq
        rw [ih n (d + 1) (by omega) (by omega)]
        constructor
        · intro h m hm hmm hdvd
          rcases Nat.eq_or_lt_of_le hm with rfl | hlt
          · obtain ⟨c, rfl⟩ := hdvd
            exact hmod (Nat.mul_mod_right d c)
          · exact h m hlt hmm hdvd
        · intro h m hm hmm hdvd
          exact h m (le_trans (Nat.le_succ d) hm) hmm hdvd

/-- `is_prime` characterised against mathematical primality. -/
theorem is_prime_iff (n : ℤ) : is_prime n = true ↔ 2 ≤ n ∧ Nat.Prime n.toNat := by
  unfold is_prime
  by_cases hn : n < 2
  · simp only [if_pos hn, Bool.false_eq_true, false_iff, not_and]
    intro h
    omega
  · rw [if_neg hn]
    have h2 : 2 ≤ n := by omega
    have h2n : 2 ≤ n.toNat := by omega
    rw [trialDiv_eq_true_iff (n.toNat + 1 - 2) n.toNat 2 (by omega) (le_refl _)]
    rw [Nat.prime_def_le_sqrt]
    constructor
    · intro h
      refine ⟨h2, h2n, fun m hm hms => h m hm (Nat.le_sqrt.mp hms)⟩
    · rintro ⟨-, -, h⟩
      exact fun m hm hmm => h m hm (Nat.le_sqrt.mpr hmm)

/-! ## Claim C5: `is_prime` agrees with ground truth, false on 0, 1 and negatives -/

/-- C5: `is_prime` agrees with trial-division ground truth (mathematical
primality of the non-negative value) for every integer; in particular it is
false on `0` and `1`, and every negative input returns false rather than
crashing. -/
theorem is_prime_correct :
    (∀ n : ℤ, is_prime n = true ↔ 2 ≤ n ∧ Nat.Prime n.toNat)
    ∧ is_prime 0 = false
    ∧ is_prime 1 = false
    ∧ (∀ n : ℤ, n < 0 → is_prime n = false) := by
  refine ⟨is_prime_iff, rfl, rfl, ?_⟩
  intro n hn
  unfold is_prime
  rw [if_pos (by omega)]

/-- C5 witness: a negative input evaluates to `false`. -/
theorem is_prime_correct_witness : is_prime (-7) = false :=
  is_prime_correct.2.2.2 (-7) (by norm_num)

/-! ## Claim C3: the two Fibonacci variants agree on the validated domain -/

/-- C3: for every `n` in the validated domain (`0 ≤ n ≤ 92`, so that
`F(n)` fits the 64-bit signed return type), `fibonacci_iterative`,
`fibonacci_recursive` and the mathematical `F` with `F(0)=0, F(1)=1`
all agree. -/
theorem fibonacci_iterative_eq_recursive (n : ℕ) (_h : n ≤ 92) :
    fibonacci_iterative n = fibonacci_recursive n
    ∧ fibonacci_recursive n = Nat.fib n :=
  ⟨(fibonacci_iterative_eq_fib n).trans (fibonacci_recursive_eq_fib n).symm,
    fibonacci_recursive_eq_fib n⟩

/-- C3 witness: both variants produce `F(10) = 55`. -/
theorem fibonacci_iterative_eq_recursive_witness :
    fibonacci_iterative 10 = fibonacci_recursive 10
    ∧ fibonacci_recursive 10 = Nat.fib 10 :=
  fibonacci_iterative_eq_recursive 10 (by norm_num)

theorem Icc_eq_insert (i j : ℤ) (h : i ≤ j) :
    Finset.Icc i j = insert i (Finset.Icc (i + 1) j) := by
  ext x
  simp only [Finset.mem_Icc, Finset.mem_insert]
  omega

/-- The counting loop counts exactly the primes among the `k` consecutive
integers starting at `i`. -/
theorem countPrimesGo_eq :
    ∀ (k : ℕ) (i : ℤ), countPrimesGo i k
      = ((Finset.Icc i (i + k - 1)).filter (fun n => is_prime n = true)).card := by
  intro k
  induction k with
  | zero =>
    intro i
    rw [countPrimesGo]
    rw [Finset.Icc_eq_empty (by push_cast; omega)]
    simp
  | succ k ih =>
    intro i
    rw [countPrimesGo, ih (i + 1)]
    have hend : i + 1 + (k : ℤ) - 1 = i + ((k : ℕ) + 1 : ℕ) - 1 := by
      push_cast
      ring
    rw [hend]
    have hins : Finset.Icc i (i + ((k : ℕ) + 1 : ℕ) - 1)
        = insert i (Finset.Icc (i + 1) (i + ((k : ℕ) + 1 : ℕ) - 1)) := by
      apply Icc_eq_insert
      push_cast
      omega
    rw [hins, Finset.filter_insert]
    by_cases hp : is_prime i = true
    · rw [if_pos hp, if_pos hp,
        Finset.card_insert_of_not_mem (by
          simp only [Finset.mem_filter, Finset.mem_Icc, not_and]
          intro hmem
          omega)]
      omega
    · rw [if_neg hp, if_neg hp]
      omega

/-! ## Claim C4: `count_primes` counts `is_prime` over the inclusive range -/

/-- C4: `count_primes(start, end)` is the number of `n` in the inclusive
range `[start, end]` with `is_prime n` true; an inverted or empty range
returns `0` rather than failing, in particular `count_primes 5 2 = 0`. -/
theorem count_primes_correct (s e : ℤ) :
    count_primes s e = ((Finset.Icc s e).filter (fun n => is_prime n = true)).card
    ∧ (e < s → count_primes s e = 0)
    ∧ count_primes 5 2 = 0 := by
  have hmain : count_primes s e
      = ((Finset.Icc s e).filter (fun n => is_prime n = true)).card := by
    unfold count_primes
    by_cases h : s ≤ e + 1
    · rw [countPrimesGo_eq]
      have hend : s + ((e + 1 - s).toNat : ℤ) - 1 = e := by
        rw [Int.toNat_of_nonneg (by omega)]
        ring
      rw [hend]
    · have h0 : (e + 1 - s).toNat = 0 := by omega
      rw [h0, countPrimesGo]
      rw [Finset.Icc_eq_empty (by omega)]
      simp
  refine ⟨hmain, fun hlt => ?_, ?_⟩
  · rw [hmain, Finset.Icc_eq_empty (by omega)]
    simp
  · rfl

/-- C4 witness: the inverted range `[5, 2]` counts zero primes. -/
theorem count_primes_correct_witness : count_primes 5 2 = 0 :=
  (count_primes_correct 5 2).2.1 (by norm_num)

/-! ## Computation library: memory-intensive array primitives (spec §4.3) -/

/-- Modelled from the spec: `array_reverse(arr, n)` — in-place reversal of
a caller-allocated double array; element `i` of the result is element
`n - 1 - i` of the input (`src/benchmark_lib.c` is missing from the tree).
-/
def array_reverse (l : List ℚ) : List ℚ :=
  List.ofFn fun i : Fin l.length =>
    l.get ⟨l.length - 1 - i.val, by have := i.isLt; omega⟩

theorem array_reverse_eq_reverse (l : List ℚ) : array_reverse l = l.reverse := by
  apply List.ext_getElem
  · simp [array_reverse]
  · intro i h1 h2
    simp only [array_reverse, List.getElem_ofFn, List.get_eq_getElem,
      List.getElem_reverse]

/-- Modelled from the spec: `sum_array` — linear reduction of a double
array, an empty array sums to `0.0` (`src/benchmark_lib.c` is missing from
the tree). -/
def sum_array (l : List ℚ) : ℚ := l.foldl (· + ·) 0

/-- Loop of `sum_strided`: accumulates `arr[i]` for indices
`i, i+stride, i+2·stride, ... < n`. -/
def sumStridedGo (l : List ℚ) (stride : ℕ) (hs : 0 < stride) (i : ℕ) : ℚ :=
  if _h : i < l.length then l.getD i 0 + sumStridedGo l stride hs (i + stride)
  else 0
termination_by l.length - i
decreasing_by omega

/-- Modelled from the spec: `sum_strided(arr, n, stride) -> Σ arr[i]` for
`i = 0, stride, 2·stride, ... < n`, with `stride ≥ 1` as the contract's
domain (`src/benchmark_lib.c` is missing from the tree). -/
def sum_strided (l : List ℚ) (stride : ℕ) : ℚ :=
  if hs : 0 < stride then sumStridedGo l stride hs 0 else 0

theorem sumStridedGo_one :
    ∀ (k : ℕ) (l : List ℚ) (i : ℕ), l.length - i ≤ k →
      sumStridedGo l 1 one_pos i = (l.drop i).sum := by
  intro k
  induction k with
  | zero =>
    intro l i hk
    rw [sumStridedGo, dif_neg (by omega)]
    rw [List.drop_eq_nil_of_le (by omega), List.sum_nil]
  | succ k ih =>
    intro l i hk
    by_cases h : i < l.length
    · rw [sumStridedGo, dif_pos h, ih l (i + 1) (by omega)]
      rw [List.drop_eq_getElem_cons h, List.sum_cons,
        List.getD_eq_getElem l 0 h]
    · rw [sumStridedGo, dif_neg h]
      rw [List.drop_eq_nil_of_le (by omega), List.sum_nil]

theorem sum_array_eq_sum (l : List ℚ) : sum_array l = l.sum := by
  rw [sum_array, List.sum_eq_foldl]

/-! ## Claim C6: `array_reverse` is an involution -/

/-- C6: `array_reverse` is an involution — applying it twice restores the
original array (for every length, `0` and `1` included) — and a single
application yields the elementwise reversal of the input. -/
theorem array_reverse_involution (l : List ℚ) :
    array_reverse (array_reverse l) = l ∧ array_reverse l = l.reverse := by
  rw [array_reverse_eq_reverse, array_reverse_eq_reverse, List.reverse_reverse]
  exact ⟨rfl, array_reverse_eq_reverse l ▸ rfl⟩

/-! ## Claim C7: `sum_strided` versus `sum_array` and large strides -/

/-- C7: `sum_strided(arr, n, 1)` equals `sum_array(arr, n)`; for
`stride ≥ n` with `n > 0` the strided sum is the single term `arr[0]`; and
for `n = 0` it is `0.0`. -/
theorem sum_strided_spec (l : List ℚ) (stride : ℕ) :
    sum_strided l 1 = sum_array l
    ∧ (l.length ≤ stride → 0 < l.length → sum_strided l stride = l.getD 0 0)
    ∧ sum_strided [] stride = 0 := by
  refine ⟨?_, ?_, ?_⟩
  · rw [sum_strided, dif_pos one_pos,
      sumStridedGo_one l.length l 0 (by omega), List.drop_zero,
      sum_array_eq_sum]
  · intro hge h0
    have hs : 0 < stride := lt_of_lt_of_le h0 hge
    rw [sum_strided, dif_pos hs, sumStridedGo, dif_pos (by omega)]
    rw [sumStridedGo, dif_neg (by omega), add_zero]
  · rcases Nat.eq_zero_or_pos stride with h | h
    · rw [sum_strided, dif_neg (by omega)]
    · rw [sum_strided, dif_pos h, sumStridedGo, dif_neg (by simp)]

/-- C7 witness: for the two-element array `[5, 7]` and stride `3 ≥ n`,
the strided sum is the single leading element. -/
theorem sum_strided_spec_witness :
    sum_strided [(5 : ℚ), 7] 3 = [(5 : ℚ), 7].getD 0 0 :=
  (sum_strided_spec [(5 : ℚ), 7] 3).2.1 (by norm_num) (by norm_num)

/-! ## Computation library: pointer-graph primitives (spec §4.6) -/

/-- The singly linked `Node` structure from `ctypes_wrapper.py`
(`{data: c_int, next: POINTER(Node)}`), embedded as an inductive value:
`nil` is the null pointer. -/
inductive Node where
  | nil : Node
  | node (data : ℤ) (next : Node) : Node
  deriving Repr, DecidableEq

/-- Loop of `create_list`: builds nodes with payloads `i, i+1, ...` for `k`
nodes. -/
def createListGo (i : ℤ) : ℕ → Node
  | 0 => .nil
  | k + 1 => .node i (createListGo (i + 1) k)

/-- Modelled from the spec: `create_list(size)` builds a singly linked list
of `size` nodes with payload values `0..size-1` in list order; `size = 0`
yields the empty (null) list (`src/benchmark_lib.c` is missing from the
tree). -/
def create_list (size : ℕ) : Node := createListGo 0 size

/-- Modelled from the spec: `sum_list(head) -> Σ payload`
(`src/benchmark_lib.c` is missing from the tree). -/
def sum_list : Node → ℤ
  | .nil => 0
  | .node d next => d + sum_list next

/-- Modelled from the spec: `free_list(head)` releases every node; the
model returns the number of nodes released (`src/benchmark_lib.c` is
missing from the tree). -/
def free_list : Node → ℕ
  | .nil => 0
  | .node _ next => 1 + free_list next

/-- Payloads of a linked list in list order, for stating specifications. -/
def payloads : Node → List ℤ
  | .nil => []
  | .node d next => d :: payloads next

/-- `ct_list_operations` from `ctypes_wrapper.py`: create the list, sum it,
free the created head with the single `free_list` call, return the total.
The second component records how many nodes that one call released. -/
def ct_list_operations (size : ℕ) : ℤ × ℕ :=
  let head := create_list size
  let total := sum_list head
  let freed := free_list head
  (total, freed)

theorem payloads_createListGo (k : ℕ) :
    ∀ i : ℤ, payloads (createListGo i k)
      = (List.range k).map (fun j : ℕ => i + (j : ℤ)) := by
  induction k with
  | zero => intro i; simp [createListGo, payloads]
  | succ k ih =>
    intro i
    rw [createListGo, payloads, ih (i + 1), List.range_succ_eq_map]
    rw [List.map_cons, List.map_map]
    congr 1
    · simp
    · apply List.map_congr_left
      intro a _
      simp only [Function.comp_apply]
      push_cast
      ring

theorem sum_createListGo (k : ℕ) :
    ∀ i : ℤ, 2 * sum_list (createListGo i k) = k * (2 * i + k - 1) := by
  induction k with
  | zero => intro i; simp [createListGo, sum_list]
  | succ k ih =>
    intro i
    rw [createListGo, sum_list, mul_add, ih (i + 1)]
    push_cast
    ring

theorem free_list_createListGo (k : ℕ) :
    ∀ i : ℤ, free_list (createListGo i k) = k := by
  induction k with
  | zero => intro i; simp [createListGo, free_list]
  | succ k ih =>
    intro i
    rw [createListGo, free_list, ih (i + 1)]
    omega

theorem sum_list_create_list (n : ℕ) :
    sum_list (create_list n) = (n * (n - 1) / 2 : ℕ) := by
  match n with
  | 0 => rfl
  | m + 1 =>
    have h2 : 2 * sum_list (create_list (m + 1)) = ((m : ℤ) + 1) * m := by
      have h := sum_createListGo (m + 1) 0
      rw [create_list, h]
      push_cast
      ring
    have hdvd : 2 ∣ (m + 1) * m := by
      rcases Nat.even_or_odd m with he | ho
      · exact he.two_dvd.mul_left (m + 1)
      · exact (ho.add_one).two_dvd.mul_right m
    have hcast : ((((m + 1) * m) / 2 : ℕ) : ℤ) * 2 = ((m : ℤ) + 1) * m := by
      have h := Nat.div_mul_cancel hdvd
      exact_mod_cast h
    simp only [Nat.add_sub_cancel]
    linarith [h2, hcast]

/-! ## Claim C8: linked-list create / sum / free round trip -/

/-- C8: `create_list n` builds the payloads `0..n-1` in list order
(`n = 0` gives the empty/null list), `sum_list` of it is `n(n-1)/2`, and
`ct_list_operations n` returns that total while its single `free_list`
call releases every one of the `n` created nodes. -/
theorem list_operations_correct (n : ℕ) :
    payloads (create_list n) = (List.range n).map (fun j : ℕ => (j : ℤ))
    ∧ create_list 0 = Node.nil
    ∧ sum_list (create_list n) = (n * (n - 1) / 2 : ℕ)
    ∧ (ct_list_operations n).1 = (n * (n - 1) / 2 : ℕ)
    ∧ (ct_list_operations n).2 = free_list (create_list n)
    ∧ free_list (create_list n) = n := by
  refine ⟨?_, rfl, sum_list_create_list n, sum_list_create_list n, rfl, ?_⟩
  · rw [create_list, payloads_createListGo n 0]
    simp
  · rw [create_list, free_list_createListGo n 0]

/-! ## Computation library: marshalling primitives (spec §4.4) -/

/-- The UTF-8 encoding of one code point (what Python's
`s.encode('utf-8')` produces per character): 1 byte below `0x80`, 2 below
`0x800`, 3 below `0x10000`, 4 otherwise. -/
def utf8Bytes (c : Char) : List ℕ :=
  let cp := c.toNat
  if cp < 128 then [cp]
  else if cp < 2048 then [192 + cp / 64, 128 + cp % 64]
  else if cp < 65536 then [224 + cp / 4096, 128 + cp / 64 % 64, 128 + cp % 64]
  else [240 + cp / 262144, 128 + cp / 4096 % 64, 128 + cp / 64 % 64,
    128 + cp % 64]

/-- The byte buffer `s.encode('utf-8')` passed by `ct_string_length` to the
library (the terminating NUL is not part of the counted buffer). -/
def utf8Encode (s : List Char) : List ℕ := s.flatMap utf8Bytes

/-- Modelled from the spec: `string_length(s) -> byte length` of a
null-terminated text buffer — the number of bytes before the terminator,
not the code-point count (`src/benchmark_lib.c` is missing from the
tree). -/
def string_length (bytes : List ℕ) : ℕ := bytes.length

/-- `ct_string_length` from `ctypes_wrapper.py`: encodes the Python string
as UTF-8 and calls the library's `string_length` on the resulting
buffer. -/
def ct_string_length (s : List Char) : ℕ := string_length (utf8Encode s)

theorem utf8Bytes_length_of_ascii (c : Char) (h : c.toNat < 128) :
    (utf8Bytes c).length = 1 := by
  unfold utf8Bytes
  rw [if_pos h]
  rfl

/-! ## Claim C9: `string_length` counts bytes, not code points -/

/-- C9: `ct_string_length` returns the byte length of the UTF-8 encoding of
the string (the number of bytes before the terminator); this coincides with
the character count exactly on ASCII strings — a string of `n` characters
all below `0x80` measures `n`, while the single non-ASCII character
`é` (code point 233) measures `2` bytes against `1` character. -/
theorem ct_string_length_spec :
    (∀ s : List Char, ct_string_length s = (utf8Encode s).length)
    ∧ (∀ s : List Char, (∀ c ∈ s, c.toNat < 128) →
        ct_string_length s = s.length)
    ∧ (ct_string_length [Char.ofNat 233] = 2 ∧ [Char.ofNat 233].length = 1) := by
  refine ⟨fun s => rfl, ?_, by decide, rfl⟩
  intro s hs
  induction s with
  | nil => rfl
  | cons c cs ih =>
    have hc : c.toNat < 128 := hs c (by simp)
    have hcs : ∀ c ∈ cs, c.toNat < 128 := fun x hx => hs x (by simp [hx])
    unfold ct_string_length string_length utf8Encode at ih ⊢
    rw [List.flatMap_cons, List.length_append, ih hcs,
      utf8Bytes_length_of_ascii c hc, List.length_cons]
    omega

/-- C9 witness: the two-character ASCII string `"ab"` measures 2 bytes. -/
theorem ct_string_length_spec_witness :
    ct_string_length [Char.ofNat 97, Char.ofNat 98]
      = [Char.ofNat 97, Char.ofNat 98].length :=
  ct_string_length_spec.2.1 [Char.ofNat 97, Char.ofNat 98] (by decide)

end CtypesPerf


